import Mathlib

/-!
Verification of the tiered cache core of `eldisco-mongodb-models`
(`src/services/BaseCache.ts`, `src/services/CacheManager.ts`,
`src/services/CatalogService.ts`, `ProductService`).

Shallow embedding conventions:
* Timestamps (`Date.now()`, `Date` values) are modelled as `Int` milliseconds.
* A JS `Map` is modelled as an insertion-ordered association list with unique
  keys: `Map.set` on an existing key keeps its position, a new key is appended;
  `Map.delete` removes the binding; `Map.keys().next().value` is the head key.
* `async` methods are modelled as pure state transformers; each remote
  (Upstash Redis) call takes an extra `fault : Bool` telling whether the
  transport throws on that call, and the `try`/`catch` in the source is
  modelled with `Except`.
* JS truthiness of strings (`if (firstKey)`, `if (pattern)`) is modelled as
  "present and not the empty string".
-/

namespace EldiscoCache

/-- `Map.get`: first binding of the key in the association list. -/
def listGet {α : Type} : List (String × α) → String → Option α
  | [], _ => none
  | (k2, v) :: t, k => if k2 = k then some v else listGet t k

/-- `Map.set`: an existing key keeps its insertion position and gets the new
value; a new key is appended at the end. -/
def listSet {α : Type} : List (String × α) → String → α → List (String × α)
  | [], k, v => [(k, v)]
  | (k2, v2) :: t, k, v =>
    if k2 = k then (k, v) :: t else (k2, v2) :: listSet t k v

/-- `Map.delete`: removes the binding of the key (keys are unique in a `Map`,
so removing every binding of the key is the same operation). -/
def listErase {α : Type} (l : List (String × α)) (k : String) : List (String × α) :=
  l.filter (fun kv => decide (kv.1 ≠ k))

theorem listGet_listSet_self {α : Type} (l : List (String × α)) (k : String) (v : α) :
    listGet (listSet l k v) k = some v := by
  induction l with
  | nil => simp [listSet, listGet]
  | cons hd t ih =>
    by_cases h : hd.1 = k
    · simp [listSet, h, listGet]
    · simpa [listSet, h, listGet] using ih

theorem listGet_listErase_self {α : Type} (l : List (String × α)) (k : String) :
    listGet (listErase l k) k = none := by
  induction l with
  | nil => simp [listErase, listGet]
  | cons hd t ih =>
    by_cases h : hd.1 = k
    · simpa [listErase, h] using ih
    · simpa [listErase, listGet, h] using ih

theorem listGet_listErase_ne {α : Type} (l : List (String × α)) (k k2 : String)
    (h : k ≠ k2) : listGet (listErase l k2) k = listGet l k := by
  induction l with
  | nil => simp [listErase]
  | cons hd t ih =>
    obtain ⟨a, b⟩ := hd
    have h4 : k2 ≠ k := fun e => h e.symm
    by_cases h2 : a = k2
    · simpa [listErase, listGet, List.filter_cons, h2, h4] using ih
    · by_cases h3 : a = k
      · simp [listErase, listGet, List.filter_cons, h2, h3, h]
      · simpa [listErase, listGet, List.filter_cons, h2, h3] using ih

theorem length_listSet_le {α : Type} (l : List (String × α)) (k : String) (v : α) :
    (listSet l k v).length ≤ l.length + 1 := by
  induction l with
  | nil => simp [listSet]
  | cons hd t ih =>
    by_cases h : hd.1 = k
    · simp [listSet, h]
    · simp only [listSet, h, if_false, List.length_cons]
      omega

theorem length_listErase_le {α : Type} (l : List (String × α)) (k : String) :
    (listErase l k).length ≤ l.length :=
  List.length_filter_le _ l

theorem mem_listSet {α : Type} (l : List (String × α)) (k : String) (v : α)
    (kv : String × α) (h : kv ∈ listSet l k v) : kv = (k, v) ∨ kv ∈ l := by
  induction l with
  | nil => simpa [listSet] using h
  | cons hd t ih =>
    by_cases h2 : hd.1 = k
    · simp only [listSet, h2, if_true, List.mem_cons] at h
      rcases h with h | h
      · exact Or.inl h
      · exact Or.inr (List.mem_cons_of_mem _ h)
    · simp only [listSet, h2, if_false, List.mem_cons] at h
      rcases h with h | h
      · exact Or.inr (h ▸ List.mem_cons_self _ _)
      · rcases ih h with h3 | h3
        · exact Or.inl h3
        · exact Or.inr (List.mem_cons_of_mem _ h3)

theorem mem_listErase {α : Type} (l : List (String × α)) (k : String)
    (kv : String × α) (h : kv ∈ listErase l k) : kv ∈ l :=
  List.mem_of_mem_filter h

/-- A cache entry of `MemoryCache` (`{ data, expires, lastModified? }` in
`BaseCache.ts`); `expires` and `lastModified` are millisecond timestamps. -/
structure CacheEntry (V : Type) where
  data : V
  expires : Int
  lastModified : Option Int
deriving DecidableEq, Repr

/-- The in-process tier: `class MemoryCache` of `BaseCache.ts`.
`cache` is the private `Map`, `maxSize` the configured bound. -/
structure MemoryCache (V : Type) where
  cache : List (String × CacheEntry V)
  maxSize : Nat
deriving DecidableEq, Repr

/-- The eviction step of `MemoryCache.set` ("Remove oldest entries if cache is
full"): when `cache.size >= maxSize`, reads
`firstKey = cache.keys().next().value` and deletes it only when truthy
(`if (firstKey)` — `undefined` on an empty map and the empty string are both
falsy). -/
def evictIfFull {V : Type} (c : MemoryCache V) : List (String × CacheEntry V) :=
  if c.maxSize ≤ c.cache.length then
    match c.cache.head? with
    | some kv => if kv.1 = "" then c.cache else listErase c.cache kv.1
    | none => c.cache
  else c.cache

/-- `MemoryCache.set(key, data, ttl, lastModified?)`: the eviction step, then
store `{ data, expires: Date.now() + ttl*1000, lastModified }`. -/
def MemoryCache.set {V : Type} (c : MemoryCache V) (key : String) (data : V)
    (ttl : Int) (lastModified : Option Int) (now : Int) : MemoryCache V :=
  { c with cache := listSet (evictIfFull c) key ⟨data, now + ttl * 1000, lastModified⟩ }

/-- `MemoryCache.get(key)`: absent gives `null`; an entry with
`Date.now() > entry.expires` is deleted and gives `null`; otherwise the stored
data is returned (the map is unchanged). Returns (result, updated cache). -/
def MemoryCache.get {V : Type} (c : MemoryCache V) (key : String) (now : Int) :
    Option V × MemoryCache V :=
  match listGet c.cache key with
  | none => (none, c)
  | some e =>
    if e.expires < now then (none, { c with cache := listErase c.cache key })
    else (some e.data, c)

/-- `MemoryCache.isStale(key, lastModified)`: `true` when no entry exists or
the entry has no `lastModified`; otherwise `lastModified > entry.lastModified`.
The method only reads the map, so in the embedding it returns a bare `Bool`. -/
def MemoryCache.isStale {V : Type} (c : MemoryCache V) (key : String)
    (lastModified : Int) : Bool :=
  match listGet c.cache key with
  | none => true
  | some e =>
    match e.lastModified with
    | none => true
    | some lm => decide (lm < lastModified)

/-- `MemoryCache.delete(key)`. -/
def MemoryCache.delete {V : Type} (c : MemoryCache V) (key : String) : MemoryCache V :=
  { c with cache := listErase c.cache key }

/-- `MemoryCache.clear()`. -/
def MemoryCache.clear {V : Type} (c : MemoryCache V) : MemoryCache V :=
  { c with cache := [] }

/-- `MemoryCache.getStats()` as `(size, maxSize)`. -/
def MemoryCache.getStats {V : Type} (c : MemoryCache V) : Nat × Nat :=
  (c.cache.length, c.maxSize)

/-- The JSON envelope `{ data, timestamp: Date.now() }` that `RedisCache.set`
serializes into the remote store (`setex`'s TTL is handled by the remote store
itself and is outside the embedding). -/
structure RemoteEntry (V : Type) where
  data : V
  timestamp : Int
deriving DecidableEq, Repr

/-- The remote tier: `class RedisCache` of `BaseCache.ts`. `redis = none`
models a client whose construction failed (`require` threw), permanently
unavailable; `redis = some store` is a live Upstash client whose key space is
`store`. -/
structure RedisCache (V : Type) where
  redis : Option (List (String × RemoteEntry V))
deriving DecidableEq, Repr

/-- The remote `setex` transport call; throws when the network faults. -/
def redisTrySetex {V : Type} (store : List (String × RemoteEntry V)) (key : String)
    (e : RemoteEntry V) (fault : Bool) : Except Unit (List (String × RemoteEntry V)) :=
  if fault then Except.error () else Except.ok (listSet store key e)

/-- The remote `get` transport call (including JSON parsing of the envelope);
throws when the network faults or the payload does not parse. -/
def redisTryGet {V : Type} (store : List (String × RemoteEntry V)) (key : String)
    (fault : Bool) : Except Unit (Option (RemoteEntry V)) :=
  if fault then Except.error () else Except.ok (listGet store key)

/-- The remote `del` transport call. -/
def redisTryDel {V : Type} (store : List (String × RemoteEntry V)) (key : String)
    (fault : Bool) : Except Unit (List (String × RemoteEntry V)) :=
  if fault then Except.error () else Except.ok (listErase store key)

/-- The remote `keys(pattern)` + `del(...keys)` / `flushall` transport calls of
`RedisCache.clear`. `globMatch pat k` models `redis.keys(pat)` listing key `k`.
A truthy pattern (`if (pattern)`) deletes every matching key individually;
otherwise `flushall` empties the store. -/
def redisTryClear {V : Type} (store : List (String × RemoteEntry V))
    (pat : Option String) (globMatch : String → String → Bool) (fault : Bool) :
    Except Unit (List (String × RemoteEntry V)) :=
  if fault then Except.error ()
  else
    match pat with
    | some p =>
      if p = "" then Except.ok []
      else Except.ok (store.filter (fun kv => !(globMatch p kv.1)))
    | none => Except.ok []

/-- `RedisCache.set`: no-op when the client is unavailable; a transport error
is caught and logged, leaving the store as it was. -/
def RedisCache.set {V : Type} (r : RedisCache V) (key : String) (data : V)
    (now : Int) (fault : Bool) : RedisCache V :=
  match r.redis with
  | none => r
  | some store =>
    match redisTrySetex store key ⟨data, now⟩ fault with
    | Except.ok store2 => ⟨some store2⟩
    | Except.error _ => r

/-- `RedisCache.get`: `null` when unavailable, absent, or on a caught
transport/parse error; otherwise the envelope's `data`. -/
def RedisCache.get {V : Type} (r : RedisCache V) (key : String) (fault : Bool) :
    Option V :=
  match r.redis with
  | none => none
  | some store =>
    match redisTryGet store key fault with
    | Except.ok (some e) => some e.data
    | Except.ok none => none
    | Except.error _ => none

/-- `RedisCache.delete`: no-op when unavailable or on a caught error. -/
def RedisCache.delete {V : Type} (r : RedisCache V) (key : String) (fault : Bool) :
    RedisCache V :=
  match r.redis with
  | none => r
  | some store =>
    match redisTryDel store key fault with
    | Except.ok store2 => ⟨some store2⟩
    | Except.error _ => r

/-- `RedisCache.clear(pattern?)`: no-op when unavailable or on a caught error;
with a truthy pattern deletes the matching keys, otherwise `flushall`. -/
def RedisCache.clear {V : Type} (r : RedisCache V) (pat : Option String)
    (globMatch : String → String → Bool) (fault : Bool) : RedisCache V :=
  match r.redis with
  | none => r
  | some store =>
    match redisTryClear store pat globMatch fault with
    | Except.ok store2 => ⟨some store2⟩
    | Except.error _ => r

/-- `RedisCache.isAvailable()`. -/
def RedisCache.isAvailable {V : Type} (r : RedisCache V) : Bool :=
  r.redis.isSome

/-- `Required<CacheConfig>`: the resolved per-service configuration
(`{ ttl: 3600, maxSize: 1000, enabled: true, ...config }`). -/
structure CacheConfig where
  ttl : Int
  maxSize : Nat
  enabled : Bool
deriving DecidableEq, Repr

/-- `abstract class BaseCacheService` of `BaseCache.ts`: a coordinator owning
one `MemoryCache`, an optional `RedisCache`, and its own resolved config (the
constructor spreads the caller's config into a fresh object). -/
structure BaseCacheService (V : Type) where
  memoryCache : MemoryCache V
  redisCache : Option (RedisCache V)
  config : CacheConfig
deriving DecidableEq, Repr

/-- The `BaseCacheService` constructor: copies the resolved config and builds
an empty `MemoryCache` with `config.maxSize`. -/
def mkBaseCacheService {V : Type} (config : CacheConfig)
    (redis : Option (RedisCache V)) : BaseCacheService V :=
  { memoryCache := ⟨[], config.maxSize⟩, redisCache := redis, config := config }

/-- `BaseCacheService.setCache(key, data, lastModified?)`: nothing when
disabled; otherwise memory set with the configured TTL, then Redis set when
available. -/
def BaseCacheService.setCache {V : Type} (s : BaseCacheService V) (key : String)
    (data : V) (lastModified : Option Int) (now : Int) (fault : Bool) :
    BaseCacheService V :=
  if s.config.enabled = false then s
  else
    let mc := s.memoryCache.set key data s.config.ttl lastModified now
    match s.redisCache with
    | some r =>
      if r.isAvailable then
        { s with memoryCache := mc, redisCache := some (r.set key data now fault) }
      else { s with memoryCache := mc }
    | none => { s with memoryCache := mc }

/-- `BaseCacheService.getCache(key)`: `null` when disabled; memory first (its
lazy-expiry deletion is kept); on memory miss, Redis when available, back-fill
memory with the configured TTL and no `lastModified` on a remote hit. -/
def BaseCacheService.getCache {V : Type} (s : BaseCacheService V) (key : String)
    (now : Int) (fault : Bool) : Option V × BaseCacheService V :=
  if s.config.enabled = false then (none, s)
  else
    match s.memoryCache.get key now with
    | (some v, _) => (some v, s)
    | (none, mc) =>
      match s.redisCache with
      | some r =>
        if r.isAvailable then
          match r.get key fault with
          | some v =>
            (some v, { s with memoryCache := mc.set key v s.config.ttl none now })
          | none => (none, { s with memoryCache := mc })
        else (none, { s with memoryCache := mc })
      | none => (none, { s with memoryCache := mc })

/-- `BaseCacheService.invalidateCache(key)`: memory delete, then Redis delete
when available (no `enabled` guard in the source). -/
def BaseCacheService.invalidateCache {V : Type} (s : BaseCacheService V)
    (key : String) (fault : Bool) : BaseCacheService V :=
  let mc := s.memoryCache.delete key
  match s.redisCache with
  | some r =>
    if r.isAvailable then
      { s with memoryCache := mc, redisCache := some (r.delete key fault) }
    else { s with memoryCache := mc }
  | none => { s with memoryCache := mc }

/-- JS truthiness of the optional `pattern` string argument. -/
def patTruthy (pat : Option String) : Bool :=
  match pat with
  | some p => decide (p ≠ "")
  | none => false

/-- `BaseCacheService.clearCache(pattern?)`: with a truthy pattern the memory
tier is cleared wholesale when non-empty (documented simplification); without
one it is cleared too; then `RedisCache.clear(pattern)` when available. -/
def BaseCacheService.clearCache {V : Type} (s : BaseCacheService V)
    (pat : Option String) (globMatch : String → String → Bool) (fault : Bool) :
    BaseCacheService V :=
  let mc :=
    if patTruthy pat then
      if 0 < (s.memoryCache.getStats).1 then s.memoryCache.clear else s.memoryCache
    else s.memoryCache.clear
  match s.redisCache with
  | some r =>
    if r.isAvailable then
      { s with memoryCache := mc, redisCache := some (r.clear pat globMatch fault) }
    else { s with memoryCache := mc }
  | none => { s with memoryCache := mc }

/-- `BaseCacheService.isCacheStale(key, lastModified)`. -/
def BaseCacheService.isCacheStale {V : Type} (s : BaseCacheService V)
    (key : String) (lastModified : Int) : Bool :=
  s.memoryCache.isStale key lastModified

/-- `ProductService.invalidateProductCache()`: the four invalidations of
`ProductService`, in source order. -/
def invalidateProductCache {V : Type} (s : BaseCacheService V)
    (globMatch : String → String → Bool) (fault : Bool) : BaseCacheService V :=
  ((((s.invalidateCache "products:all" fault).invalidateCache
      "products:low-stock" fault).clearCache
      (some "products:query:*") globMatch fault).clearCache
      (some "products:search:*") globMatch fault)

/-- The argument type of `CatalogService.invalidateSpecificCache`. -/
inductive CatalogCacheType where
  | categories
  | brands
  | suppliers
  | especificaciones
deriving DecidableEq, Repr

/-- `CatalogService.invalidateSpecificCache(type)`: the per-type switch of
`CatalogService.ts`. -/
def invalidateSpecificCache {V : Type} (s : BaseCacheService V)
    (t : CatalogCacheType) (globMatch : String → String → Bool) (fault : Bool) :
    BaseCacheService V :=
  match t with
  | CatalogCacheType.categories =>
    ((s.invalidateCache "catalog:categories" fault).invalidateCache
      "catalog:full" fault).invalidateCache "catalog:categories-with-products" fault
  | CatalogCacheType.brands =>
    (s.invalidateCache "catalog:brands" fault).invalidateCache "catalog:full" fault
  | CatalogCacheType.suppliers =>
    (s.invalidateCache "catalog:suppliers" fault).invalidateCache "catalog:full" fault
  | CatalogCacheType.especificaciones =>
    (s.clearCache (some "catalog:specs:*") globMatch fault).invalidateCache
      "catalog:full" fault

/-- The resolved `CacheManagerConfig` (the optional `redis` block is carried
separately in `mkCacheManager`). -/
structure CacheManagerConfig where
  ttl : Int
  maxSize : Nat
  enabled : Bool
  autoInvalidate : Bool
deriving DecidableEq, Repr

/-- The `CacheConfig` portion of a manager config handed to each service. -/
def CacheManagerConfig.toCacheConfig (c : CacheManagerConfig) : CacheConfig :=
  ⟨c.ttl, c.maxSize, c.enabled⟩

/-- `class CacheManager` of `CacheManager.ts`: its own config object plus the
three per-entity services constructed from it. -/
structure CacheManager (V : Type) where
  config : CacheManagerConfig
  productService : BaseCacheService V
  catalogService : BaseCacheService V
  salesService : BaseCacheService V
deriving DecidableEq, Repr

/-- The private `CacheManager` constructor: resolves the config and hands it to
every service; each `BaseCacheService` constructor copies it by spreading. -/
def mkCacheManager {V : Type} (cfg : CacheManagerConfig)
    (redis : Option (RedisCache V)) : CacheManager V :=
  { config := cfg
    productService := mkBaseCacheService cfg.toCacheConfig redis
    catalogService := mkBaseCacheService cfg.toCacheConfig redis
    salesService := mkBaseCacheService cfg.toCacheConfig redis }

/-- `CacheManager.setEnabled(enabled)`: mutates only the manager's own config
object (the services hold spread-copies made at construction). -/
def CacheManager.setEnabled {V : Type} (m : CacheManager V) (e : Bool) :
    CacheManager V :=
  { m with config := { m.config with enabled := e } }

/-- `CacheManager.isEnabled()`: `this.config.enabled || false`. -/
def CacheManager.isEnabled {V : Type} (m : CacheManager V) : Bool :=
  m.config.enabled || false

/-- The `Category` post-hook of `CacheManager.setupCatalogHooks`: invalidate
the catalog `categories` keys and the product caches (products reference
categories). -/
def categoryMutationDispatch {V : Type} (m : CacheManager V)
    (globMatch : String → String → Bool) (fault : Bool) : CacheManager V :=
  { m with
    catalogService :=
      invalidateSpecificCache m.catalogService CatalogCacheType.categories globMatch fault
    productService := invalidateProductCache m.productService globMatch fault }

/-- The `Especificacion` post-hook of `CacheManager.setupCatalogHooks`: only
the catalog `especificaciones` invalidation; the product service is not
touched. -/
def especificacionMutationDispatch {V : Type} (m : CacheManager V)
    (globMatch : String → String → Bool) (fault : Bool) : CacheManager V :=
  { m with
    catalogService :=
      invalidateSpecificCache m.catalogService CatalogCacheType.especificaciones
        globMatch fault }

/-- One operation of a `MemoryCache` use sequence (for the size-bound claim). -/
inductive CacheOp (V : Type) where
  | set (key : String) (data : V) (ttl : Int) (lastModified : Option Int) (now : Int)
  | get (key : String) (now : Int)
  | del (key : String)
  | clear
deriving DecidableEq, Repr

/-- Apply one operation to a `MemoryCache` (keeping only the state). -/
def applyOp {V : Type} (c : MemoryCache V) : CacheOp V → MemoryCache V
  | CacheOp.set k d ttl lm now => c.set k d ttl lm now
  | CacheOp.get k now => (c.get k now).2
  | CacheOp.del k => c.delete k
  | CacheOp.clear => c.clear

/-- Run a sequence of operations left to right. -/
def runOps {V : Type} (c : MemoryCache V) (ops : List (CacheOp V)) : MemoryCache V :=
  ops.foldl applyOp c

/-- A `set` operation whose key is a truthy (non-empty) string; other
operations are unconstrained. -/
def opSetKeyTruthy {V : Type} : CacheOp V → Bool
  | CacheOp.set k _ _ _ _ => decide (k ≠ "")
  | _ => true

/-- Every key in the map is a truthy (non-empty) string. -/
def TruthyKeys {V : Type} (c : MemoryCache V) : Prop :=
  ∀ kv ∈ c.cache, kv.1 ≠ ""

theorem listErase_cons_head {α : Type} (hd : String × α) (t : List (String × α)) :
    listErase (hd :: t) hd.1 = listErase t hd.1 := by
  simp [listErase, List.filter_cons]

theorem MemoryCache.get_hit_state {V : Type} (c : MemoryCache V) (key : String)
    (now : Int) (v : V) (mc : MemoryCache V) (h : c.get key now = (some v, mc)) :
    mc = c := by
  unfold MemoryCache.get at h
  split at h
  · simp at h
  · split at h
    · simp at h
    · simp only [Prod.mk.injEq] at h
      exact h.2.symm

theorem mem_evictIfFull {V : Type} (c : MemoryCache V) (kv : String × CacheEntry V)
    (h : kv ∈ evictIfFull c) : kv ∈ c.cache := by
  unfold evictIfFull at h
  split at h
  · split at h
    · split at h
      · exact h
      · exact mem_listErase _ _ _ h
    · exact h
  · exact h

theorem length_evictIfFull {V : Type} (c : MemoryCache V) (hm : 1 ≤ c.maxSize)
    (ht : TruthyKeys c) (hl : c.cache.length ≤ c.maxSize)
    (hfull : c.maxSize ≤ c.cache.length) :
    (evictIfFull c).length + 1 ≤ c.maxSize := by
  cases hc : c.cache with
  | nil =>
    exfalso
    rw [hc] at hfull
    simp only [List.length_nil, Nat.le_zero] at hfull
    omega
  | cons hd t =>
    have hhd1 : hd.1 ≠ "" := ht hd (by rw [hc]; exact List.mem_cons_self _ _)
    have he : evictIfFull c = listErase t hd.1 := by
      unfold evictIfFull
      rw [if_pos hfull, hc]
      show (if hd.1 = "" then hd :: t else listErase (hd :: t) hd.1) = listErase t hd.1
      rw [if_neg hhd1, listErase_cons_head]
    rw [he]
    have h1 := length_listErase_le t hd.1
    have h2 : c.cache.length = t.length + 1 := by rw [hc]; simp
    omega

theorem MemoryCache.set_preserves {V : Type} (c : MemoryCache V) (k : String)
    (d : V) (ttl : Int) (lm : Option Int) (now : Int) (hk : k ≠ "")
    (hm : 1 ≤ c.maxSize) (ht : TruthyKeys c) (hl : c.cache.length ≤ c.maxSize) :
    TruthyKeys (c.set k d ttl lm now) ∧
      (c.set k d ttl lm now).cache.length ≤ c.maxSize := by
  constructor
  · intro kv hkv
    rcases mem_listSet _ _ _ _ hkv with h | h
    · rw [h]; exact hk
    · exact ht kv (mem_evictIfFull c kv h)
  · show (listSet (evictIfFull c) k _).length ≤ c.maxSize
    have h1 := length_listSet_le (evictIfFull c) k
      (⟨d, now + ttl * 1000, lm⟩ : CacheEntry V)
    by_cases hfull : c.maxSize ≤ c.cache.length
    · have h2 := length_evictIfFull c hm ht hl hfull
      omega
    · have h2 : evictIfFull c = c.cache := by unfold evictIfFull; rw [if_neg hfull]
      rw [h2]
      have h3 := length_listSet_le c.cache k
        (⟨d, now + ttl * 1000, lm⟩ : CacheEntry V)
      omega

theorem applyOp_maxSize {V : Type} (c : MemoryCache V) (op : CacheOp V) :
    (applyOp c op).maxSize = c.maxSize := by
  cases op with
  | set k d ttl lm now => rfl
  | get k now =>
    show (c.get k now).2.maxSize = c.maxSize
    unfold MemoryCache.get
    split
    · rfl
    · split <;> rfl
  | del k => rfl
  | clear => rfl

theorem applyOp_preserves {V : Type} (c : MemoryCache V) (op : CacheOp V)
    (hop : opSetKeyTruthy op = true) (hm : 1 ≤ c.maxSize) (ht : TruthyKeys c)
    (hl : c.cache.length ≤ c.maxSize) :
    TruthyKeys (applyOp c op) ∧ (applyOp c op).cache.length ≤ c.maxSize := by
  cases op with
  | set k d ttl lm now =>
    have hk : k ≠ "" := by simpa [opSetKeyTruthy] using hop
    exact MemoryCache.set_preserves c k d ttl lm now hk hm ht hl
  | get k now =>
    show TruthyKeys (c.get k now).2 ∧ (c.get k now).2.cache.length ≤ c.maxSize
    unfold MemoryCache.get
    split
    · exact ⟨ht, hl⟩
    · split
      · constructor
        · intro kv hkv
          exact ht kv (mem_listErase _ _ _ hkv)
        · show (listErase c.cache k).length ≤ c.maxSize
          have := length_listErase_le c.cache k
          omega
      · exact ⟨ht, hl⟩
  | del k =>
    constructor
    · intro kv hkv
      exact ht kv (mem_listErase _ _ _ hkv)
    · show (listErase c.cache k).length ≤ c.maxSize
      have := length_listErase_le c.cache k
      omega
  | clear =>
    refine ⟨fun kv hkv => ?_, ?_⟩
    · simp [applyOp, MemoryCache.clear] at hkv
    · simp [applyOp, MemoryCache.clear]

theorem runOps_preserves {V : Type} (ops : List (CacheOp V)) :
    ∀ (c : MemoryCache V), (∀ op ∈ ops, opSetKeyTruthy op = true) →
      1 ≤ c.maxSize → TruthyKeys c → c.cache.length ≤ c.maxSize →
      TruthyKeys (runOps c ops) ∧ (runOps c ops).cache.length ≤ c.maxSize := by
  induction ops with
  | nil => exact fun c _ _ ht hl => ⟨ht, hl⟩
  | cons op rest ih =>
    intro c hops hm ht hl
    have h1 := applyOp_preserves c op (hops op (List.mem_cons_self _ _)) hm ht hl
    have hmax := applyOp_maxSize c op
    have h2 := ih (applyOp c op) (fun o ho => hops o (List.mem_cons_of_mem _ ho))
      (by rw [hmax]; exact hm) h1.1 (by rw [hmax]; exact h1.2)
    rw [hmax] at h2
    exact h2

/-- Claim C1 (amended): for a bound of at least one entry and operation
sequences whose `set` keys are truthy (non-empty) strings, the entry count
never exceeds `maxSize` after any sequence of set/get/delete/clear, and a
`set` performed while the cache holds at least `maxSize` entries removes
exactly one pre-existing entry (the first-inserted binding) before the new
entry is added. -/
theorem claim1_theorem {V : Type} :
    (∀ (maxSize : Nat), 1 ≤ maxSize → ∀ (ops : List (CacheOp V)),
      (∀ op ∈ ops, opSetKeyTruthy op = true) →
      (runOps ⟨[], maxSize⟩ ops).cache.length ≤ maxSize) ∧
    (∀ (c : MemoryCache V) (key : String) (d : V) (ttl : Int)
      (lm : Option Int) (now : Int),
      TruthyKeys c → 1 ≤ c.maxSize → c.maxSize ≤ c.cache.length →
      ∃ k0 e0, listGet c.cache k0 = some e0 ∧
        (c.set key d ttl lm now).cache =
          listSet (listErase c.cache k0) key ⟨d, now + ttl * 1000, lm⟩) := by
  constructor
  · intro maxSize hm ops hops
    exact (runOps_preserves ops ⟨[], maxSize⟩ hops hm
      (by intro kv hkv; simp at hkv) (by simp)).2
  · intro c key d ttl lm now ht hm hfull
    cases hc : c.cache with
    | nil =>
      exfalso
      rw [hc] at hfull
      simp only [List.length_nil, Nat.le_zero] at hfull
      omega
    | cons hd t =>
      have hhd1 : hd.1 ≠ "" := ht hd (by rw [hc]; exact List.mem_cons_self _ _)
      refine ⟨hd.1, hd.2, ?_, ?_⟩
      · show listGet (hd :: t) hd.1 = some hd.2
        obtain ⟨a, b⟩ := hd
        simp [listGet]
      · show listSet (evictIfFull c) key ⟨d, now + ttl * 1000, lm⟩ =
          listSet (listErase (hd :: t) hd.1) key ⟨d, now + ttl * 1000, lm⟩
        have he : evictIfFull c = listErase (hd :: t) hd.1 := by
          unfold evictIfFull
          rw [if_pos hfull, hc]
          show (if hd.1 = "" then hd :: t else listErase (hd :: t) hd.1) =
            listErase (hd :: t) hd.1
          rw [if_neg hhd1]
        rw [he]

/-- Claim C1, counterexample to the original statement: with `maxSize = 1`,
setting under the empty-string key and then a second key leaves two entries
(the falsy `firstKey` defeats the eviction and nothing is removed); with
`maxSize = 0`, a single set already exceeds the bound without removing any
pre-existing entry. -/
theorem claim1_counterexample :
    (((⟨[], 1⟩ : MemoryCache Nat).set "" 1 60 none 0).set "a" 2 60 none 0).cache =
      [("", ⟨1, 60000, none⟩), ("a", ⟨2, 60000, none⟩)] ∧
    (((⟨[], 1⟩ : MemoryCache Nat).set "" 1 60 none 0).set "a" 2 60 none 0).cache.length = 2 ∧
    ((⟨[], 0⟩ : MemoryCache Nat).set "a" 1 60 none 0).cache.length = 1 := by
  decide

/-- A full cache at capacity 2 with truthy keys, for the C1 witness. -/
def claim1FullCache : MemoryCache Nat :=
  ⟨[("a", ⟨1, 60000, none⟩), ("b", ⟨2, 60000, none⟩)], 2⟩

/-- Claim C1, witness: the amended theorem applied at capacity 2 to the
scenario sequence `set a; set b; set c` and to a concrete full cache. -/
theorem claim1_witness :
    (runOps (⟨[], 2⟩ : MemoryCache Nat)
      [CacheOp.set "a" 1 60 none 0, CacheOp.set "b" 2 60 none 0,
       CacheOp.set "c" 3 60 none 0]).cache.length ≤ 2 ∧
    (∃ k0 e0, listGet claim1FullCache.cache k0 = some e0 ∧
      (claim1FullCache.set "c" 3 60 none 0).cache =
        listSet (listErase claim1FullCache.cache k0) "c" ⟨3, 0 + 60 * 1000, none⟩) :=
  ⟨claim1_theorem.1 2 (by decide) _ (by decide),
   claim1_theorem.2 claim1FullCache "c" 3 60 none 0
     (by unfold TruthyKeys claim1FullCache; decide) (by decide) (by decide)⟩

/-- The cache state after `set("k", 5, ttl = 1s)` performed at time 0: the
entry's `expires` is millisecond 1000. -/
def claim2State : MemoryCache Nat :=
  (⟨[], 10⟩ : MemoryCache Nat).set "k" 5 1 none 0

/-- Claim C2, counterexample: at the instant `now = expiresAt` (millisecond
1000) the source still serves the stored value and keeps the entry
(`Date.now() > entry.expires` is false at equality), while the claim requires
removal and absence at that instant. -/
theorem claim2_counterexample :
    listGet claim2State.cache "k" = some ⟨5, 1000, none⟩ ∧
    claim2State.get "k" 1000 = (some 5, claim2State) := by decide

/-- Claim C2 (amended): `get` returns the stored value when present and
`now ≤ expiresAt` (boundary instant included); on an absent key it returns
absent with the cache unchanged; when `expiresAt < now` (strictly) it removes
the entry and returns absent; hence after `set(key, v, ttl)` at `t0`,
`get(key)` at `t` returns `v` iff `t ≤ t0 + ttl·1000`, absent strictly
afterwards. -/
theorem claim2_theorem {V : Type} :
    (∀ (c : MemoryCache V) (key : String) (now : Int),
      listGet c.cache key = none → c.get key now = (none, c)) ∧
    (∀ (c : MemoryCache V) (key : String) (now : Int) (e : CacheEntry V),
      listGet c.cache key = some e → now ≤ e.expires →
      c.get key now = (some e.data, c)) ∧
    (∀ (c : MemoryCache V) (key : String) (now : Int) (e : CacheEntry V),
      listGet c.cache key = some e → e.expires < now →
      c.get key now = (none, ⟨listErase c.cache key, c.maxSize⟩)) ∧
    (∀ (c : MemoryCache V) (key : String) (v : V) (ttl : Int)
      (lm : Option Int) (t0 t : Int),
      ((c.set key v ttl lm t0).get key t).1 =
        if t ≤ t0 + ttl * 1000 then some v else none) := by
  refine ⟨?_, ?_, ?_, ?_⟩
  · intro c key now h
    simp [MemoryCache.get, h]
  · intro c key now e h h2
    simp [MemoryCache.get, h, not_lt.mpr h2]
  · intro c key now e h h2
    simp [MemoryCache.get, h, h2]
  · intro c key v ttl lm t0 t
    have hg : listGet (c.set key v ttl lm t0).cache key =
        some ⟨v, t0 + ttl * 1000, lm⟩ :=
      listGet_listSet_self (evictIfFull c) key _
    by_cases ht2 : t ≤ t0 + ttl * 1000
    · simp [MemoryCache.get, hg, ht2, not_lt.mpr ht2]
    · simp [MemoryCache.get, hg, ht2, not_le.mp ht2]

/-- The state after `set("k", 7)` carrying `lastModified = 50`, and the set
state of the C3 scenario, for witnesses. -/
def claim3Cache : MemoryCache Nat :=
  ⟨[("k", ⟨7, 5000, some 50⟩)], 10⟩

/-- Claim C3, confirmed: `isStale(key, t)` is true when no entry exists, true
when the entry carries no `lastModified`, and otherwise true iff
`t > entry.lastModified`; written with `lastModified = T0`, `isStale(key, T0)`
is false and `isStale(key, T0 + 1000ms)` is true. In the embedding `isStale`
is a function of the state to `Bool`, so it leaves the cache unchanged by
construction (the source method only calls `Map.get`). -/
theorem claim3_theorem {V : Type} :
    (∀ (c : MemoryCache V) (key : String) (t : Int),
      listGet c.cache key = none → c.isStale key t = true) ∧
    (∀ (c : MemoryCache V) (key : String) (t : Int) (e : CacheEntry V),
      listGet c.cache key = some e → e.lastModified = none →
      c.isStale key t = true) ∧
    (∀ (c : MemoryCache V) (key : String) (t : Int) (e : CacheEntry V) (lm : Int),
      listGet c.cache key = some e → e.lastModified = some lm →
      (c.isStale key t = true ↔ lm < t)) ∧
    (∀ (c : MemoryCache V) (key : String) (v : V) (ttl : Int) (T0 now : Int),
      (c.set key v ttl (some T0) now).isStale key T0 = false ∧
      (c.set key v ttl (some T0) now).isStale key (T0 + 1000) = true) := by
  refine ⟨?_, ?_, ?_, ?_⟩
  · intro c key t h
    simp [MemoryCache.isStale, h]
  · intro c key t e h h2
    simp [MemoryCache.isStale, h, h2]
  · intro c key t e lm h h2
    simp [MemoryCache.isStale, h, h2]
  · intro c key v ttl T0 now
    have hg : listGet (c.set key v ttl (some T0) now).cache key =
        some ⟨v, now + ttl * 1000, some T0⟩ :=
      listGet_listSet_self (evictIfFull c) key _
    constructor
    · simp [MemoryCache.isStale, hg]
    · simp [MemoryCache.isStale, hg]

/-- Claim C3, witness: the theorem applied to a concrete entry carrying
`lastModified = 50` and to the concrete `T0 = 50` scenario. -/
theorem claim3_witness :
    (claim3Cache.isStale "k" 60 = true ↔ (50 : Int) < 60) ∧
    ((claim3Cache.set "q" 1 3600 (some 50) 0).isStale "q" 50 = false ∧
      (claim3Cache.set "q" 1 3600 (some 50) 0).isStale "q" (50 + 1000) = true) :=
  ⟨claim3_theorem.2.2.1 claim3Cache "k" 60 ⟨7, 5000, some 50⟩ 50 (by decide) (by decide),
   claim3_theorem.2.2.2 claim3Cache "q" 1 3600 50 0⟩

/-- Claim C2, witness: the amended theorem applied at the expiry boundary and
strictly after it on `claim2State` (entry expires at 1000). -/
theorem claim2_witness :
    claim2State.get "k" 1001 =
      (none, ⟨listErase claim2State.cache "k", claim2State.maxSize⟩) ∧
    claim2State.get "k" 1000 = (some 5, claim2State) :=
  ⟨claim2_theorem.2.2.1 claim2State "k" 1001 ⟨5, 1000, none⟩ (by decide) (by decide),
   claim2_theorem.2.1 claim2State "k" 1000 ⟨5, 1000, none⟩ (by decide) (by decide)⟩

/-- The state after `set("k", 5, ttl = 0, lastModified = 50)` at time 0: the
entry is already expired at any positive probe time but still physically in
the map (no background sweep). -/
def claim9State : MemoryCache Nat :=
  (⟨[], 10⟩ : MemoryCache Nat).set "k" 5 0 (some 50) 0

/-- Claim C9, confirmed: `isStale` ignores expiry. In `claim9State` the entry
expired at 0 (so `get` at time 200 returns absent and removes it), yet
`isStale("k", 40)` with probe `40 ≤ lastModified = 50` returns false — the
entry is expired but reported fresh. -/
theorem claim9_theorem :
    listGet claim9State.cache "k" = some ⟨5, 0, some 50⟩ ∧
    ((0 : Int) < 200 ∧ (40 : Int) ≤ 50) ∧
    claim9State.isStale "k" 40 = false ∧
    (claim9State.get "k" 200).1 = none ∧
    (claim9State.get "k" 200).2.cache = [] := by decide

/-- A coordinator stripped of its secondary tier (the reference behaviour a
degraded coordinator must match). -/
def primaryOnly {V : Type} (s : BaseCacheService V) : BaseCacheService V :=
  { s with redisCache := none }

theorem redisSet_noop {V : Type} (r : RedisCache V) (key : String) (data : V)
    (now : Int) (fault : Bool) (h : r.redis = none ∨ fault = true) :
    r.set key data now fault = r := by
  rcases h with h | h
  · simp [RedisCache.set, h]
  · subst h
    cases hred : r.redis with
    | none => simp [RedisCache.set, hred]
    | some store => simp [RedisCache.set, hred, redisTrySetex]

theorem redisGet_noop {V : Type} (r : RedisCache V) (key : String) (fault : Bool)
    (h : r.redis = none ∨ fault = true) : r.get key fault = none := by
  rcases h with h | h
  · simp [RedisCache.get, h]
  · subst h
    cases hred : r.redis with
    | none => simp [RedisCache.get, hred]
    | some store => simp [RedisCache.get, hred, redisTryGet]

theorem redisDelete_noop {V : Type} (r : RedisCache V) (key : String) (fault : Bool)
    (h : r.redis = none ∨ fault = true) : r.delete key fault = r := by
  rcases h with h | h
  · simp [RedisCache.delete, h]
  · subst h
    cases hred : r.redis with
    | none => simp [RedisCache.delete, hred]
    | some store => simp [RedisCache.delete, hred, redisTryDel]

theorem redisClear_noop {V : Type} (r : RedisCache V) (pat : Option String)
    (gm : String → String → Bool) (fault : Bool)
    (h : r.redis = none ∨ fault = true) : r.clear pat gm fault = r := by
  rcases h with h | h
  · simp [RedisCache.clear, h]
  · subst h
    cases hred : r.redis with
    | none => simp [RedisCache.clear, hred]
    | some store => simp [RedisCache.clear, hred, redisTryClear]

theorem getCache_disabled {V : Type} (s : BaseCacheService V) (key : String)
    (now : Int) (fault : Bool) (h : s.config.enabled = false) :
    s.getCache key now fault = (none, s) := by
  unfold BaseCacheService.getCache
  rw [if_pos h]

theorem getCache_primary_hit {V : Type} (s : BaseCacheService V) (key : String)
    (now : Int) (fault : Bool) (v : V) (mc : MemoryCache V)
    (h : s.config.enabled = true) (hmem : s.memoryCache.get key now = (some v, mc)) :
    s.getCache key now fault = (some v, s) := by
  unfold BaseCacheService.getCache
  rw [if_neg (by simp [h]), hmem]

theorem getCache_secondary_hit {V : Type} (s : BaseCacheService V) (key : String)
    (now : Int) (mc : MemoryCache V) (r : RedisCache V)
    (store : List (String × RemoteEntry V)) (e : RemoteEntry V)
    (h : s.config.enabled = true) (hmem : s.memoryCache.get key now = (none, mc))
    (hr : s.redisCache = some r) (hst : r.redis = some store)
    (hkey : listGet store key = some e) :
    s.getCache key now false =
      (some e.data, { s with memoryCache := mc.set key e.data s.config.ttl none now }) := by
  unfold BaseCacheService.getCache
  rw [if_neg (by simp [h]), hmem]
  have ha : r.isAvailable = true := by simp [RedisCache.isAvailable, hst]
  have hget : r.get key false = some e.data := by
    simp [RedisCache.get, hst, redisTryGet, hkey]
  simp only [hr, ha, if_true, hget]

theorem getCache_no_secondary {V : Type} (s : BaseCacheService V) (key : String)
    (now : Int) (fault : Bool)
    (hget : ∀ r : RedisCache V, s.redisCache = some r → r.get key fault = none) :
    s.getCache key now fault =
      if s.config.enabled = false then (none, s)
      else ((s.memoryCache.get key now).1,
        { s with memoryCache := (s.memoryCache.get key now).2 }) := by
  unfold BaseCacheService.getCache
  by_cases he : s.config.enabled = false
  · simp only [if_pos he]
  · simp only [if_neg he]
    rcases hp : s.memoryCache.get key now with ⟨res, mc⟩
    cases res with
    | some v =>
      have h2 := MemoryCache.get_hit_state _ _ _ _ _ hp
      rw [h2]
    | none =>
      cases hr : s.redisCache with
      | none => rfl
      | some r =>
        by_cases ha : r.isAvailable
        · simp [ha, hget r hr]
        · simp [ha]

theorem setCache_memoryCache {V : Type} (s : BaseCacheService V) (key : String)
    (data : V) (lm : Option Int) (now : Int) (fault : Bool) :
    (s.setCache key data lm now fault).memoryCache =
      if s.config.enabled = false then s.memoryCache
      else s.memoryCache.set key data s.config.ttl lm now := by
  unfold BaseCacheService.setCache
  by_cases he : s.config.enabled = false
  · simp only [if_pos he]
  · simp only [if_neg he]
    cases s.redisCache with
    | none => rfl
    | some r => by_cases ha : r.isAvailable <;> simp [ha]

theorem setCache_redisCache_noop {V : Type} (s : BaseCacheService V)
    (r : RedisCache V) (key : String) (data : V) (lm : Option Int) (now : Int)
    (fault : Bool) (hr : s.redisCache = some r) (h : r.redis = none ∨ fault = true) :
    (s.setCache key data lm now fault).redisCache = s.redisCache := by
  unfold BaseCacheService.setCache
  by_cases he : s.config.enabled = false
  · simp only [if_pos he]
  · simp only [if_neg he, hr]
    by_cases ha : r.isAvailable
    · simp only [ha, if_true]
      show some (r.set key data now fault) = some r
      rw [redisSet_noop r key data now fault h]
    · simp [ha]

theorem invalidateCache_memoryCache {V : Type} (s : BaseCacheService V)
    (key : String) (fault : Bool) :
    (s.invalidateCache key fault).memoryCache = s.memoryCache.delete key := by
  unfold BaseCacheService.invalidateCache
  cases s.redisCache with
  | none => rfl
  | some r => by_cases ha : r.isAvailable <;> simp [ha]

theorem invalidateCache_redisCache_noop {V : Type} (s : BaseCacheService V)
    (r : RedisCache V) (key : String) (fault : Bool) (hr : s.redisCache = some r)
    (h : r.redis = none ∨ fault = true) :
    (s.invalidateCache key fault).redisCache = s.redisCache := by
  unfold BaseCacheService.invalidateCache
  simp only [hr]
  by_cases ha : r.isAvailable
  · simp only [ha, if_true]
    show some (r.delete key fault) = some r
    rw [redisDelete_noop r key fault h]
  · simp [ha]

theorem clearCache_memoryCache {V : Type} (s : BaseCacheService V)
    (pat : Option String) (gm : String → String → Bool) (fault : Bool) :
    (s.clearCache pat gm fault).memoryCache.cache = [] := by
  have hmc : (if patTruthy pat = true then
      (if 0 < (s.memoryCache.getStats).1 then s.memoryCache.clear else s.memoryCache)
      else s.memoryCache.clear).cache = [] := by
    by_cases hb : patTruthy pat = true
    · rw [if_pos hb]
      by_cases hz : 0 < (s.memoryCache.getStats).1
      · rw [if_pos hz]; rfl
      · rw [if_neg hz]
        have hz2 : ¬ 0 < s.memoryCache.cache.length := hz
        have h0 : s.memoryCache.cache.length = 0 := by omega
        exact List.length_eq_zero.mp h0
    · rw [if_neg hb]; rfl
  unfold BaseCacheService.clearCache
  cases s.redisCache with
  | none => exact hmc
  | some r =>
    by_cases ha : r.isAvailable
    · simp only [ha, if_true]
      exact hmc
    · simp only [ha]
      exact hmc

theorem clearCache_memoryCache_eq {V : Type} (s : BaseCacheService V)
    (pat : Option String) (gm : String → String → Bool) (fault : Bool) :
    (s.clearCache pat gm fault).memoryCache =
      if patTruthy pat = true then
        (if 0 < (s.memoryCache.getStats).1 then s.memoryCache.clear else s.memoryCache)
      else s.memoryCache.clear := by
  unfold BaseCacheService.clearCache
  cases s.redisCache with
  | none => rfl
  | some r => by_cases ha : r.isAvailable <;> simp [ha]

theorem clearCache_redisCache_noop {V : Type} (s : BaseCacheService V)
    (r : RedisCache V) (pat : Option String) (gm : String → String → Bool)
    (fault : Bool) (hr : s.redisCache = some r)
    (h : r.redis = none ∨ fault = true) :
    (s.clearCache pat gm fault).redisCache = s.redisCache := by
  unfold BaseCacheService.clearCache
  simp only [hr]
  by_cases ha : r.isAvailable
  · simp only [ha, if_true]
    show some (r.clear pat gm fault) = some r
    rw [redisClear_noop r pat gm fault h]
  · simp [ha]

theorem clearCache_redis_pattern {V : Type} (s : BaseCacheService V) (p : String)
    (gm : String → String → Bool) (r : RedisCache V)
    (store : List (String × RemoteEntry V)) (hr : s.redisCache = some r)
    (hst : r.redis = some store) (hp : p ≠ "") :
    (s.clearCache (some p) gm false).redisCache =
      some ⟨some (store.filter (fun kv => !(gm p kv.1)))⟩ := by
  unfold BaseCacheService.clearCache
  simp only [hr]
  have ha : r.isAvailable = true := by simp [RedisCache.isAvailable, hst]
  simp only [ha, if_true]
  show some (r.clear (some p) gm false) = _
  simp [RedisCache.clear, hst, redisTryClear, hp]

/-- Claim C4, confirmed: `getCache` returns absent when caching is disabled;
on a primary hit it returns the memory value with the state unchanged; on a
primary miss with an available secondary holding the key it returns the remote
value and back-fills the primary with that value under the configured TTL; on
a miss in both tiers (no secondary, unavailable secondary, or secondary
returning absent) it returns absent. -/
theorem claim4_theorem {V : Type} :
    (∀ (s : BaseCacheService V) (key : String) (now : Int) (fault : Bool),
      s.config.enabled = false → s.getCache key now fault = (none, s)) ∧
    (∀ (s : BaseCacheService V) (key : String) (now : Int) (fault : Bool)
      (v : V) (mc : MemoryCache V), s.config.enabled = true →
      s.memoryCache.get key now = (some v, mc) →
      s.getCache key now fault = (some v, s)) ∧
    (∀ (s : BaseCacheService V) (key : String) (now : Int) (mc : MemoryCache V)
      (r : RedisCache V) (store : List (String × RemoteEntry V)) (e : RemoteEntry V),
      s.config.enabled = true → s.memoryCache.get key now = (none, mc) →
      s.redisCache = some r → r.redis = some store → listGet store key = some e →
      s.getCache key now false =
        (some e.data,
          { s with memoryCache := mc.set key e.data s.config.ttl none now })) ∧
    (∀ (s : BaseCacheService V) (key : String) (now : Int) (fault : Bool)
      (mc : MemoryCache V), s.config.enabled = true →
      s.memoryCache.get key now = (none, mc) →
      (∀ r : RedisCache V, s.redisCache = some r → r.get key fault = none) →
      s.getCache key now fault = (none, { s with memoryCache := mc })) := by
  refine ⟨?_, ?_, ?_, ?_⟩
  · exact getCache_disabled
  · exact fun s key now fault v mc h hmem =>
      getCache_primary_hit s key now fault v mc h hmem
  · exact fun s key now mc r store e h hmem hr hst hkey =>
      getCache_secondary_hit s key now mc r store e h hmem hr hst hkey
  · intro s key now fault mc h hmem hget
    rw [getCache_no_secondary s key now fault hget, if_neg (by simp [h]), hmem]

/-- A coordinator with an empty primary tier and an available secondary tier
holding key `p`, for the C4 witness. -/
def claim4Service : BaseCacheService Nat :=
  { memoryCache := ⟨[], 1000⟩
    redisCache := some ⟨some [("p", ⟨42, 0⟩)]⟩
    config := ⟨3600, 1000, true⟩ }

/-- Claim C4, witness: the secondary-hit branch applied to `claim4Service`:
the remote value 42 is returned and back-filled under the configured TTL. -/
theorem claim4_witness :
    claim4Service.getCache "p" 5 false =
      (some 42, { claim4Service with
        memoryCache := (⟨[], 1000⟩ : MemoryCache Nat).set "p" 42 3600 none 5 }) :=
  claim4_theorem.2.2.1 claim4Service "p" 5 ⟨[], 1000⟩ ⟨some [("p", ⟨42, 0⟩)]⟩
    [("p", ⟨42, 0⟩)] ⟨42, 0⟩ rfl (by decide) rfl rfl (by decide)

/-- Claim C6, confirmed: every secondary-tier operation is a caught no-op
under unavailability or a transport fault (`set`/`delete`/`clear` leave the
remote state unchanged, `get` returns absent), and under those conditions the
coordinator's operations behave exactly as primary-only: `setCache` writes the
memory tier as usual, `getCache` serves the memory tier, `invalidateCache`
deletes from the memory tier, `clearCache` clears the memory tier, and none of
them changes the stored secondary handle. -/
theorem claim6_theorem {V : Type} :
    (∀ (r : RedisCache V) (key : String) (data : V) (now : Int)
      (pat : Option String) (gm : String → String → Bool) (fault : Bool),
      r.redis = none ∨ fault = true →
      r.set key data now fault = r ∧ r.get key fault = none ∧
        r.delete key fault = r ∧ r.clear pat gm fault = r) ∧
    (∀ (s : BaseCacheService V) (r : RedisCache V) (key : String) (data : V)
      (lm : Option Int) (now : Int) (pat : Option String)
      (gm : String → String → Bool) (fault : Bool),
      s.redisCache = some r → r.redis = none ∨ fault = true →
      ((s.setCache key data lm now fault).memoryCache =
          (if s.config.enabled = false then s.memoryCache
           else s.memoryCache.set key data s.config.ttl lm now) ∧
        (s.setCache key data lm now fault).redisCache = s.redisCache) ∧
      (s.getCache key now fault =
        (if s.config.enabled = false then (none, s)
         else ((s.memoryCache.get key now).1,
           { s with memoryCache := (s.memoryCache.get key now).2 }))) ∧
      ((s.invalidateCache key fault).memoryCache = s.memoryCache.delete key ∧
        (s.invalidateCache key fault).redisCache = s.redisCache) ∧
      ((s.clearCache pat gm fault).memoryCache.cache = [] ∧
        (s.clearCache pat gm fault).redisCache = s.redisCache)) := by
  constructor
  · intro r key data now pat gm fault h
    exact ⟨redisSet_noop r key data now fault h, redisGet_noop r key fault h,
      redisDelete_noop r key fault h, redisClear_noop r pat gm fault h⟩
  · intro s r key data lm now pat gm fault hr h
    have hget1 : ∀ r2 : RedisCache V, s.redisCache = some r2 →
        r2.get key fault = none := by
      intro r2 hr2
      rw [hr] at hr2
      injection hr2 with hr3
      rw [← hr3]
      exact redisGet_noop r key fault h
    refine ⟨⟨setCache_memoryCache s key data lm now fault,
        setCache_redisCache_noop s r key data lm now fault hr h⟩,
      getCache_no_secondary s key now fault hget1,
      ⟨invalidateCache_memoryCache s key fault,
        invalidateCache_redisCache_noop s r key fault hr h⟩,
      ⟨clearCache_memoryCache s pat gm fault,
        clearCache_redisCache_noop s r pat gm fault hr h⟩⟩

/-- A coordinator whose secondary handle exists but whose remote client failed
to initialize (permanently unavailable), for the C6 witness. -/
def claim6Service : BaseCacheService Nat :=
  { memoryCache := ⟨[("x", ⟨1, 100000, none⟩)], 1000⟩
    redisCache := some ⟨none⟩
    config := ⟨3600, 1000, true⟩ }

/-- Claim C6, witness: with the unavailable secondary, `getCache` still serves
the primary tier and `invalidateCache` leaves the secondary handle unchanged. -/
theorem claim6_witness :
    claim6Service.getCache "x" 5 false =
      (if claim6Service.config.enabled = false then (none, claim6Service)
       else ((claim6Service.memoryCache.get "x" 5).1,
         { claim6Service with
           memoryCache := (claim6Service.memoryCache.get "x" 5).2 })) ∧
    (claim6Service.invalidateCache "x" false).redisCache =
      claim6Service.redisCache :=
  ⟨(claim6_theorem.2 claim6Service ⟨none⟩ "x" 9 none 5 none (fun _ _ => true)
      false rfl (Or.inl rfl)).2.1,
   (claim6_theorem.2 claim6Service ⟨none⟩ "x" 9 none 5 none (fun _ _ => true)
      false rfl (Or.inl rfl)).2.2.1.2⟩

/-- Claim C7, confirmed: for every non-empty pattern, `clearCache` empties the
entire primary tier regardless of which keys match, while the secondary tier
(when its client is available and the transport succeeds) performs a precise
pattern delete: exactly the keys listed by `keys(pattern)` are removed. -/
theorem claim7_theorem {V : Type} :
    ∀ (s : BaseCacheService V) (p : String) (gm : String → String → Bool)
      (fault : Bool), p ≠ "" →
      (s.clearCache (some p) gm fault).memoryCache.cache = [] ∧
      (∀ (r : RedisCache V) (store : List (String × RemoteEntry V)),
        s.redisCache = some r → r.redis = some store → fault = false →
        (s.clearCache (some p) gm fault).redisCache =
          some ⟨some (store.filter (fun kv => !(gm p kv.1)))⟩) := by
  intro s p gm fault hp
  constructor
  · exact clearCache_memoryCache s (some p) gm fault
  · intro r store hr hst hf
    subst hf
    exact clearCache_redis_pattern s p gm r store hr hst hp

/-- A coordinator with a non-matching key in the primary tier and two remote
keys of which exactly one matches the pattern, for the C7 witness. -/
def claim7Service : BaseCacheService Nat :=
  { memoryCache := ⟨[("m", ⟨3, 100000, none⟩)], 1000⟩
    redisCache := some ⟨some [("a:1", ⟨1, 0⟩), ("b:2", ⟨2, 0⟩)]⟩
    config := ⟨3600, 1000, true⟩ }

/-- Claim C7, witness: clearing with pattern `a:*` empties the whole primary
tier (the non-matching key `m` included) and deletes exactly the matching
remote key `a:1`, keeping `b:2`. -/
theorem claim7_witness :
    (claim7Service.clearCache (some "a:*")
      (fun _ k => decide (k = "a:1")) false).memoryCache.cache = [] ∧
    (claim7Service.clearCache (some "a:*")
      (fun _ k => decide (k = "a:1")) false).redisCache =
      some ⟨some [("b:2", ⟨2, 0⟩)]⟩ :=
  ⟨(claim7_theorem claim7Service "a:*" (fun _ k => decide (k = "a:1")) false
      (by decide)).1,
   by
     have h := (claim7_theorem claim7Service "a:*"
       (fun _ k => decide (k = "a:1")) false (by decide)).2
       ⟨some [("a:1", ⟨1, 0⟩), ("b:2", ⟨2, 0⟩)]⟩
       [("a:1", ⟨1, 0⟩), ("b:2", ⟨2, 0⟩)] rfl rfl rfl
     rw [h]
     decide⟩

/-- Claim C8, confirmed: a back-fill from a secondary hit stores the remote
value in the primary tier with no `lastModified`, so `isStale` on that key
returns true for every probe timestamp immediately after the back-fill. -/
theorem claim8_theorem {V : Type} :
    ∀ (s : BaseCacheService V) (key : String) (now : Int) (mc : MemoryCache V)
      (r : RedisCache V) (store : List (String × RemoteEntry V)) (e : RemoteEntry V),
      s.config.enabled = true → s.memoryCache.get key now = (none, mc) →
      s.redisCache = some r → r.redis = some store → listGet store key = some e →
      listGet (s.getCache key now false).2.memoryCache.cache key =
        some ⟨e.data, now + s.config.ttl * 1000, none⟩ ∧
      ∀ t : Int, (s.getCache key now false).2.memoryCache.isStale key t = true := by
  intro s key now mc r store e h hmem hr hst hkey
  rw [getCache_secondary_hit s key now mc r store e h hmem hr hst hkey]
  constructor
  · show listGet (mc.set key e.data s.config.ttl none now).cache key = _
    exact listGet_listSet_self (evictIfFull mc) key _
  · intro t
    show (mc.set key e.data s.config.ttl none now).isStale key t = true
    simp [MemoryCache.isStale, MemoryCache.set, listGet_listSet_self]

/-- A coordinator with an empty primary tier and an available secondary tier
holding key `p`, for the C8 witness. -/
def claim8Service : BaseCacheService Nat :=
  { memoryCache := ⟨[], 1000⟩
    redisCache := some ⟨some [("p", ⟨42, 0⟩)]⟩
    config := ⟨3600, 1000, true⟩ }

/-- Claim C8, witness: after the back-filling read on `claim8Service`, the
primary entry for `p` carries no `lastModified`, and `isStale("p", t)` is true
even for a probe far in the past. -/
theorem claim8_witness :
    listGet (claim8Service.getCache "p" 5 false).2.memoryCache.cache "p" =
      some ⟨42, 5 + 3600 * 1000, none⟩ ∧
    (claim8Service.getCache "p" 5 false).2.memoryCache.isStale "p" 0 = true :=
  ⟨(claim8_theorem claim8Service "p" 5 ⟨[], 1000⟩ ⟨some [("p", ⟨42, 0⟩)]⟩
      [("p", ⟨42, 0⟩)] ⟨42, 0⟩ rfl (by decide) rfl rfl (by decide)).1,
   (claim8_theorem claim8Service "p" 5 ⟨[], 1000⟩ ⟨some [("p", ⟨42, 0⟩)]⟩
      [("p", ⟨42, 0⟩)] ⟨42, 0⟩ rfl (by decide) rfl rfl (by decide)).2 0⟩

theorem invalidateProductCache_memoryCache {V : Type} (s : BaseCacheService V)
    (gm : String → String → Bool) (fault : Bool) :
    (invalidateProductCache s gm fault).memoryCache.cache = [] := by
  unfold invalidateProductCache
  exact clearCache_memoryCache _ _ _ _

/-- A manager whose catalog primary tier holds a brands key and whose product
primary tier holds the aggregate products key, for the C5 counterexample. -/
def claim5Manager : CacheManager Nat :=
  { config := ⟨3600, 1000, true, true⟩
    productService :=
      { memoryCache := ⟨[("products:all", ⟨1, 1000000, none⟩)], 1000⟩
        redisCache := none
        config := ⟨3600, 1000, true⟩ }
    catalogService :=
      { memoryCache := ⟨[("catalog:brands", ⟨2, 1000000, none⟩)], 1000⟩
        redisCache := none
        config := ⟨3600, 1000, true⟩ }
    salesService := mkBaseCacheService ⟨3600, 1000, true⟩ none }

/-- Claim C5, counterexample: an `Especificacion` mutation is dispatched while
the catalog primary tier holds the brands key `catalog:brands`; afterwards that
key is gone (the `catalog:specs:*` pattern clear wipes the whole catalog
primary tier), so the leaf mutation did not invalidate only its own keys. -/
theorem claim5_counterexample :
    listGet claim5Manager.catalogService.memoryCache.cache "catalog:brands" =
      some ⟨2, 1000000, none⟩ ∧
    listGet (especificacionMutationDispatch claim5Manager
        (fun _ _ => false) false).catalogService.memoryCache.cache
      "catalog:brands" = none := by
  decide

/-- Claim C5 (amended): after a category mutation dispatch both the dependent
aggregate key `products:all` and the category key `catalog:categories` are
absent from the respective primary tiers; an `Especificacion` mutation leaves
the product service entirely untouched, but — because the primary tier clears
wholesale on a pattern — it empties the whole catalog primary tier rather than
only especificacion-owned keys. -/
theorem claim5_theorem {V : Type} :
    ∀ (m : CacheManager V) (gm : String → String → Bool) (fault : Bool),
      (listGet (categoryMutationDispatch m gm fault).productService.memoryCache.cache
          "products:all" = none ∧
        listGet (categoryMutationDispatch m gm fault).catalogService.memoryCache.cache
          "catalog:categories" = none) ∧
      ((especificacionMutationDispatch m gm fault).productService =
          m.productService ∧
        (especificacionMutationDispatch m gm fault).catalogService.memoryCache.cache =
          []) := by
  intro m gm fault
  refine ⟨⟨?_, ?_⟩, rfl, ?_⟩
  · show listGet (invalidateProductCache m.productService gm fault).memoryCache.cache
      "products:all" = none
    rw [invalidateProductCache_memoryCache]
    rfl
  · show listGet (invalidateSpecificCache m.catalogService
      CatalogCacheType.categories gm fault).memoryCache.cache
      "catalog:categories" = none
    unfold invalidateSpecificCache
    rw [invalidateCache_memoryCache, invalidateCache_memoryCache,
      invalidateCache_memoryCache]
    show listGet (listErase (listErase (listErase
      m.catalogService.memoryCache.cache "catalog:categories") "catalog:full")
      "catalog:categories-with-products") "catalog:categories" = none
    rw [listGet_listErase_ne _ _ _ (by decide),
      listGet_listErase_ne _ _ _ (by decide), listGet_listErase_self]
  · show (invalidateSpecificCache m.catalogService
      CatalogCacheType.especificaciones gm fault).memoryCache.cache = []
    unfold invalidateSpecificCache
    rw [invalidateCache_memoryCache]
    show listErase (m.catalogService.clearCache (some "catalog:specs:*") gm
      fault).memoryCache.cache "catalog:full" = []
    rw [clearCache_memoryCache]
    rfl

/-- Claim C10, confirmed: `CacheManager.setEnabled` rewrites only the
manager's own config object; every per-entity service (holding the spread-copy
of the config made at construction) is unchanged, so its `getCache`/`setCache`
behave exactly as before, while `isEnabled()` reports the new value; a service
of a freshly constructed manager keeps the construction-time `enabled` flag
through a later `setEnabled`. -/
theorem claim10_theorem {V : Type} :
    ∀ (m : CacheManager V) (e : Bool),
      ((m.setEnabled e).productService = m.productService ∧
        (m.setEnabled e).catalogService = m.catalogService ∧
        (m.setEnabled e).salesService = m.salesService) ∧
      (m.setEnabled e).isEnabled = e ∧
      (∀ (key : String) (now : Int) (fault : Bool),
        (m.setEnabled e).productService.getCache key now fault =
          m.productService.getCache key now fault) ∧
      (∀ (key : String) (data : V) (lm : Option Int) (now : Int) (fault : Bool),
        (m.setEnabled e).productService.setCache key data lm now fault =
          m.productService.setCache key data lm now fault) ∧
      (∀ (cfg : CacheManagerConfig) (r : Option (RedisCache V)),
        ((mkCacheManager cfg r).setEnabled e).productService.config.enabled =
          cfg.enabled) := by
  intro m e
  refine ⟨⟨rfl, rfl, rfl⟩, ?_, fun key now fault => rfl,
    fun key data lm now fault => rfl, fun cfg r => rfl⟩
  simp [CacheManager.isEnabled, CacheManager.setEnabled]

end EldiscoCache
